import Mathlib

/-
Verification of the dirty-tracking and commit-generation core of the
neo4go synchronization layer (src/neo.go).

The embedding is shallow: Go structs become Lean structures, pointer-based
sharing is modelled by a heap of node records addressed by allocation tags,
panics become explicit error values that keep the state reached so far
(Go panics do not roll anything back), and the driver session is a
function parameter (an oracle) so that theorems can quantify over store
behaviour.  The generic container library (anytype) and the driver are
external collaborators; their operations are modelled by the contracts
stated in the specification (ordered mappings, slice-backed lists with
Contains / IndexOf / Delete, a session running a query text with named
parameters).
-/

namespace Neo4go

/-- Field values stored in an anytype object.  The flat constructors cover
everything the claims exercise. -/
inductive Val where
  | str (s : String)
  | int (n : Int)
  | null
deriving DecidableEq

/-- An anytype MapObject: an insertion-ordered mapping from keys to values. -/
abbrev Obj := List (String × Val)

/-- Existence test of a key, anytype KeyExists. -/
def objKeyExists (o : Obj) (k : String) : Bool :=
  o.any (fun p => p.1 == k)

/-- Lookup of a key, anytype Get. -/
def objGet (o : Obj) (k : String) : Option Val :=
  (o.find? (fun p => p.1 == k)).map (fun p => p.2)

/-- Writing one key, anytype Set for a single pair: overwrite in place when
the key exists, append otherwise. -/
def objSet1 (o : Obj) (k : String) (v : Val) : Obj :=
  if objKeyExists o k then
    o.map (fun p => if p.1 == k then (k, v) else p)
  else
    o ++ [(k, v)]

/-- Writing a list of pairs left to right; a repeated key keeps the last
value, as documented for anytype Set. -/
def objSetPairs (o : Obj) (ps : List (String × Val)) : Obj :=
  ps.foldl (fun acc p => objSet1 acc p.1 p.2) o

/-- Removing one key, anytype Unset for a single key. -/
def objUnset1 (o : Obj) (k : String) : Obj :=
  o.filter (fun p => ¬(p.1 == k))

/-- Removing a list of keys left to right. -/
def objUnsetKeys (o : Obj) (ks : List String) : Obj :=
  ks.foldl objUnset1 o

/-- Projection of the listed keys into a fresh object, anytype Pluck;
keys missing from the source are skipped. -/
def objPluck (o : Obj) (ks : List String) : Obj :=
  ks.foldl (fun acc k =>
    match objGet o k with
    | some v => objSet1 acc k v
    | none => acc) []

/-- Index of the first occurrence of an element in an anytype list,
-1 when absent (Go IndexOf convention). -/
def lIndexOf (xs : List String) (a : String) : Int :=
  match xs.findIdx? (fun x => x == a) with
  | some i => (i : Int)
  | none => -1

/-- Removal at an index from an anytype list; an out-of-range index is a
runtime panic in Go, modelled by none. -/
def lDeleteAt {α : Type} (xs : List α) (i : Int) : Option (List α) :=
  if 0 ≤ i ∧ i.toNat < xs.length then some (xs.eraseIdx i.toNat) else none

/-- One value inside a driver record: either a plain value or a graph node
(dbtype.Node) carrying identity, element id, labels and properties. -/
inductive RecVal where
  | plain (v : Val)
  | dbnode (identity : Int) (elementId : String) (labels : List String) (properties : Obj)
deriving DecidableEq

/-- One driver record: the keys with the value each resolves to. -/
abbrev Rec := List (String × RecVal)

/-- One value of a converted result row: either a plain value or the
four-field object built from a graph node by connection.Query. -/
inductive OutVal where
  | prim (v : Val)
  | nodeObj (identity : Int) (elementId : String) (labels : List String) (properties : Obj)
deriving DecidableEq

/-- One converted result row. -/
abbrev Row := List (String × OutVal)

/-- Outcome of session.Run followed by result iteration: either the run
itself fails, or it yields the records the iterator produced together with
the error the result reports after iteration (none when it completed). -/
inductive SessOut where
  | runErr (e : String)
  | ok (recs : List Rec) (iterErr : Option String)

/-- The driver session: runs a query text with optional named parameters. -/
abbrev Sess := String → Option Obj → SessOut

/-- Conversion of one record value performed by connection.Query: a graph
node becomes the object with identity, elementId, labels and properties. -/
def convVal : RecVal → OutVal
  | RecVal.plain v => OutVal.prim v
  | RecVal.dbnode i eid ls props => OutVal.nodeObj i eid ls props

/-- Conversion of one record into a result row. -/
def convRec (r : Rec) : Row :=
  r.map (fun p => (p.1, convVal p.2))

/-- Iteration part of connection.Query, after the query text has been
trimmed: on a run error the empty output list is returned with the error;
otherwise every gathered record is converted and the iteration error, if
any, is returned alongside the converted rows. -/
def connQueryCore (sess : Sess) (q : String) (params : Option Obj) :
    List Row × Option String :=
  match sess q params with
  | SessOut.runErr e => ([], some e)
  | SessOut.ok recs iterErr => (recs.map convRec, iterErr)

/-- connection.Query: trims the query text, runs it, and converts the
result records; the output list is returned in every case. -/
def connQuery (sess : Sess) (query : String) (params : Option Obj) :
    List Row × Option String :=
  connQueryCore sess query.trim params

/-- Reading a string column of a row, anytype GetString: the value must be
present and be a string. -/
def rowGetString (r : Row) (k : String) : Option String :=
  match (r.find? (fun p => p.1 == k)).map (fun p => p.2) with
  | some (OutVal.prim (Val.str s)) => some s
  | _ => none

/-- Runtime failures of the Go code.  A misuse panic, a failed type
assertion and an out-of-range list access are all Go panics; store carries
the message of a query-execution error re-thrown by a commit. -/
inductive Err where
  | misuse
  | keysNotStrings
  | cannotClear
  | indexOutOfRange
  | typeAssertion
  | missingResult
  | badRef
  | store (e : String)
deriving DecidableEq

/-- Per-node state: the backing field object, the store identity (empty
until the creation is committed) and the three dirty key lists added,
modified, deleted (anytype lists of strings in the source). -/
structure NodeData where
  fields : Obj
  id : String
  addedK : List String
  modifiedK : List String
  deletedK : List String
deriving DecidableEq

/-- One value held by a collection list slot: a pointer to a node, or a
raw object value that was stored without wrapping.  The tag is the
allocation identity, so tag equality models Go pointer equality. -/
inductive Entry where
  | nref (t : Nat)
  | raw (t : Nat) (o : Obj)
deriving DecidableEq

/-- Allocation tag of an entry. -/
def entryTag : Entry → Nat
  | Entry.nref t => t
  | Entry.raw t _ => t

/-- Membership of an entry in an anytype list of any-values, compared by
pointer identity. -/
def entContains (es : List Entry) (e : Entry) : Bool :=
  es.any (fun x => entryTag x == entryTag e)

/-- Index of an entry in an anytype list, -1 when absent. -/
def entIndexOf (es : List Entry) (e : Entry) : Int :=
  match es.findIdx? (fun x => entryTag x == entryTag e) with
  | some i => (i : Int)
  | none => -1

/-- Collection state: the promoted SliceList of rows, the fixed label, and
the three dirty lists — added (any-values: entries), modified (node
pointers, kept as tags) and deleted (identities). -/
structure Col where
  rows : List Entry
  label : String
  added : List Entry
  modified : List Nat
  deleted : List String
deriving DecidableEq

/-- Whole mutable state: the collection, the heap of node records
addressed by tag, and the next fresh allocation tag. -/
structure St where
  col : Col
  heap : List (Nat × NodeData)
  nextTag : Nat
deriving DecidableEq

/-- Dereference of a node pointer. -/
def heapGet (h : List (Nat × NodeData)) (t : Nat) : Option NodeData :=
  (h.find? (fun p => p.1 == t)).map (fun p => p.2)

/-- In-place update through a node pointer; the newest binding shadows. -/
def heapSet (h : List (Nat × NodeData)) (t : Nat) (nd : NodeData) :
    List (Nat × NodeData) :=
  (t, nd) :: h

/-- One query handed to the session: trimmed text plus parameters. -/
structure Query where
  text : String
  params : Option Obj
deriving DecidableEq

/-- Issue of one query through connection.Query, also returning the log
entry that records what the session received. -/
def runQuery (sess : Sess) (q : String) (params : Option Obj) :
    Query × (List Row × Option String) :=
  (⟨q.trim, params⟩, connQueryCore sess q.trim params)

/-- Dirty-key tracking loop of node.Set, run over the argument list before
the write when the length is even: a non-string key panics; a key not in
addedK goes to modifiedK when it exists in the fields, to addedK
otherwise. -/
def trackPairs : NodeData → List Val → NodeData × Option Err
  | nd, [] => (nd, none)
  | nd, key :: _v :: rest =>
      match key with
      | Val.str k =>
          let nd1 :=
            if nd.addedK.contains k then nd
            else if objKeyExists nd.fields k then
              { nd with modifiedK := nd.modifiedK ++ [k] }
            else
              { nd with addedK := nd.addedK ++ [k] }
          trackPairs nd1 rest
      | _ => (nd, some Err.keysNotStrings)
  | nd, [_] => (nd, none)

/-- Pairing of the variadic key/value arguments; fails on a non-string key
in key position. -/
def toPairs : List Val → Option (List (String × Val))
  | [] => some []
  | Val.str k :: v :: rest => (toPairs rest).map (fun ps => (k, v) :: ps)
  | _ => none

/-- The underlying MapObject.Set of the anytype collaborator: an
odd-length argument list is a misuse error and nothing is written;
otherwise the pairs are applied in order. -/
def mapObjectSet (o : Obj) (values : List Val) : Except Err Obj :=
  if values.length % 2 == 0 then
    match toPairs values with
    | some ps => Except.ok (objSetPairs o ps)
    | none => Except.error Err.keysNotStrings
  else
    Except.error Err.misuse

/-- node.Set: when the argument count is even, run the dirty-key tracking
loop; then register the node in the owning collection's modified list
(idempotently); then delegate the write to the promoted MapObject.Set.
An error keeps every mutation already applied, as a Go panic would. -/
def nodeSet (s : St) (t : Nat) (values : List Val) : St × Option Err :=
  match heapGet s.heap t with
  | none => (s, some Err.badRef)
  | some nd =>
    let tr := if values.length % 2 == 0 then trackPairs nd values else (nd, none)
    let s1 : St := { s with heap := heapSet s.heap t tr.1 }
    match tr.2 with
    | some e => (s1, some e)
    | none =>
      let s2 : St :=
        if s1.col.modified.contains t then s1
        else { s1 with col := { s1.col with modified := s1.col.modified ++ [t] } }
      match mapObjectSet tr.1.fields values with
      | Except.error e => (s2, some e)
      | Except.ok o =>
          ({ s2 with heap := heapSet s2.heap t { tr.1 with fields := o } }, none)

/-- Key loop of node.Unset: a key in addedK is removed from addedK; else a
key in modifiedK is removed from modifiedK at the index the key has in
addedK — faithfully reproducing the source, which queries added.IndexOf in
the modified branch; otherwise the key is appended to deletedK. -/
def unsetLoop : NodeData → List String → NodeData × Option Err
  | nd, [] => (nd, none)
  | nd, key :: rest =>
      if nd.addedK.contains key then
        match lDeleteAt nd.addedK (lIndexOf nd.addedK key) with
        | some l => unsetLoop { nd with addedK := l } rest
        | none => (nd, some Err.indexOutOfRange)
      else if nd.modifiedK.contains key then
        match lDeleteAt nd.modifiedK (lIndexOf nd.addedK key) with
        | some l => unsetLoop { nd with modifiedK := l } rest
        | none => (nd, some Err.indexOutOfRange)
      else
        unsetLoop { nd with deletedK := nd.deletedK ++ [key] } rest

/-- node.Unset: run the key loop, register the node in the collection's
modified list, delegate the removal to the promoted MapObject.Unset. -/
def nodeUnset (s : St) (t : Nat) (keys : List String) : St × Option Err :=
  match heapGet s.heap t with
  | none => (s, some Err.badRef)
  | some nd =>
    let ul := unsetLoop nd keys
    let s1 : St := { s with heap := heapSet s.heap t ul.1 }
    match ul.2 with
    | some e => (s1, some e)
    | none =>
      let s2 : St :=
        if s1.col.modified.contains t then s1
        else { s1 with col := { s1.col with modified := s1.col.modified ++ [t] } }
      ({ s2 with heap := heapSet s2.heap t { ul.1 with fields := objUnsetKeys ul.1.fields keys } }, none)

/-- node.Clear: unconditionally panics and touches nothing. -/
def nodeClear (s : St) (_t : Nat) : St × Option Err :=
  (s, some Err.cannotClear)

/-- Fold building the assignment list of the SET query in node.Commit,
exactly the ReduceStrings of the source. -/
def setClause (todo : List String) : String :=
  todo.foldl
    (fun res key =>
      res ++ (if res == "" then "" else ",") ++ " n." ++ key ++ " = $" ++ key)
    ""

/-- Text of the SET query built by node.Commit. -/
def setCypher (label id : String) (todo : List String) : String :=
  "MATCH (n:" ++ label ++ ") WHERE elementId(n) = \"" ++ id ++ "\" SET" ++
    setClause todo

/-- Text of the per-key null-out query of node.Commit, with the raw-string
line breaks and tab indentation of the source. -/
def nullCypher (label id key : String) : String :=
  "\n\t\t\t\t\tMATCH (n:" ++ label ++ ")\n\t\t\t\t\tWHERE elementId(n) = \"" ++
    id ++ "\"\n\t\t\t\t\tSET n." ++ key ++ " = null\n\t\t\t\t"

/-- Loop over the deleted keys of node.Commit: one null-out query per key,
panicking on the first store error. -/
def nodeCommitDelLoop (sess : Sess) (label id : String) :
    List String → List Query → List Query × Option Err
  | [], log => (log, none)
  | key :: rest, log =>
      let r := runQuery sess (nullCypher label id key) none
      match r.2.2 with
      | some e => (log ++ [r.1], some (Err.store e))
      | none => nodeCommitDelLoop sess label id rest (log ++ [r.1])

/-- SET-key block of node.Commit: when addedK or modifiedK is non-empty,
issue one SET query over their concatenation (the todo list of the
source), with the plucked fields as parameters, and then clear addedK
only — the source never clears modifiedK here. -/
def nodeCommitSet (sess : Sess) (s : St) (t : Nat) (nd : NodeData) :
    St × List Query × Option Err :=
  if ¬nd.addedK.isEmpty ∨ ¬nd.modifiedK.isEmpty then
    match runQuery sess (setCypher s.col.label nd.id (nd.addedK ++ nd.modifiedK))
        (some (objPluck nd.fields (nd.addedK ++ nd.modifiedK))) with
    | (q, (_, some e)) => (s, [q], some (Err.store e))
    | (q, (_, none)) =>
        ({ s with heap := heapSet s.heap t { nd with addedK := [] } }, [q], none)
  else (s, [], none)

/-- node.Commit: the SET-key block, then — when deletedK is non-empty —
one null-out query per deleted key, clearing deletedK after the loop.
A store error panics, keeping the state reached so far. -/
def nodeCommit (sess : Sess) (s : St) (t : Nat) : St × List Query × Option Err :=
  match heapGet s.heap t with
  | none => (s, [], some Err.badRef)
  | some nd =>
    match nodeCommitSet sess s t nd with
    | (s1, log1, some e) => (s1, log1, some e)
    | (s1, log1, none) =>
      match heapGet s1.heap t with
      | none => (s1, log1, some Err.badRef)
      | some nd1 =>
        if ¬nd1.deletedK.isEmpty then
          match nodeCommitDelLoop sess s.col.label nd1.id nd1.deletedK [] with
          | (log2, some e) => (s1, log1 ++ log2, some e)
          | (log2, none) =>
              ({ s1 with heap := heapSet s1.heap t { nd1 with deletedK := [] } },
               log1 ++ log2, none)
        else (s1, log1, none)

/-- Value passed to a collection-mutating call: an anytype object or any
other value (which the call rejects). -/
inductive AnyV where
  | aobj (o : Obj)
  | aother
deriving DecidableEq

/-- newNode of the collection: wraps an object as a node with the given
identity and empty dirty-key lists. -/
def newNodeData (id : String) (o : Obj) : NodeData :=
  ⟨o, id, [], [], []⟩

/-- Loop of collection.Add: each value must be an object; it is wrapped as
a fresh node with empty identity, registered in the added list and
appended to the rows. -/
def colAddLoop : St → List AnyV → St × Option Err
  | s, [] => (s, none)
  | s, AnyV.aother :: _ => (s, some Err.misuse)
  | s, AnyV.aobj o :: rest =>
      let t := s.nextTag
      let s1 : St :=
        { col := { s.col with
                     added := s.col.added ++ [Entry.nref t],
                     rows := s.col.rows ++ [Entry.nref t] },
          heap := heapSet s.heap t (newNodeData "" o),
          nextTag := t + 1 }
      colAddLoop s1 rest

/-- collection.Add. -/
def colAdd (s : St) (values : List AnyV) : St × Option Err :=
  colAddLoop s values

/-- SliceList.Insert of the promoted list: inserts at the index, an
out-of-range index being a panic. -/
def slInsert (rows : List Entry) (index : Int) (e : Entry) :
    Option (List Entry) :=
  if 0 ≤ index ∧ index.toNat ≤ rows.length then
    some (rows.insertIdx index.toNat e)
  else none

/-- collection.Insert: rejects a non-object value; otherwise appends the
value itself — not a node wrapping it — to the added list (faithful to the
source) and inserts the same value into the rows at the index. -/
def colInsert (s : St) (index : Int) (value : AnyV) : St × Option Err :=
  match value with
  | AnyV.aother => (s, some Err.misuse)
  | AnyV.aobj o =>
      let t := s.nextTag
      let e := Entry.raw t o
      let s1 : St :=
        { s with
            col := { s.col with added := s.col.added ++ [e] },
            nextTag := t + 1 }
      match slInsert s1.col.rows index e with
      | some rows => ({ s1 with col := { s1.col with rows := rows } }, none)
      | none => (s1, some Err.indexOutOfRange)

/-- SliceList.Delete of the promoted list over several indexes, applied
sequentially against the current sequence; an out-of-range index is a
panic. -/
def slDelete : List Entry → List Int → Option (List Entry)
  | rows, [] => some rows
  | rows, i :: rest =>
      match lDeleteAt rows i with
      | some rows1 => slDelete rows1 rest
      | none => none

/-- Tracking loop of collection.Delete.  The source iterates with
for index := range indexes, so the loop variable runs over the positions
0 .. len(indexes)-1 of the argument slice, not over the index values; each
position is looked up in the rows.  A row found in the added list is
dropped from it; otherwise it is dropped from the modified list when
present and, when it is a node, its identity is appended to the deleted
list. -/
def colDeleteLoop : St → List Nat → St × Option Err
  | s, [] => (s, none)
  | s, i :: rest =>
      match s.col.rows.get? i with
      | none => (s, some Err.indexOutOfRange)
      | some elem =>
        if entContains s.col.added elem then
          match lDeleteAt s.col.added (entIndexOf s.col.added elem) with
          | some l =>
              colDeleteLoop { s with col := { s.col with added := l } } rest
          | none => (s, some Err.indexOutOfRange)
        else
          let s1 : St :=
            match elem with
            | Entry.nref t =>
                if s.col.modified.contains t then
                  match lDeleteAt s.col.modified
                      ((s.col.modified.findIdx? (fun x => x == t)).elim (-1)
                        (fun i => (i : Int))) with
                  | some l => { s with col := { s.col with modified := l } }
                  | none => s
                else s
            | Entry.raw _ _ => s
          match elem with
          | Entry.nref t =>
            match heapGet s1.heap t with
            | none => (s1, some Err.badRef)
            | some nd =>
                colDeleteLoop
                  { s1 with col := { s1.col with deleted := s1.col.deleted ++ [nd.id] } }
                  rest
          | Entry.raw _ _ => colDeleteLoop s1 rest

/-- collection.Delete: run the tracking loop over the positions of the
argument list (the range bug of the source), then delete the given index
values from the promoted SliceList. -/
def colDelete (s : St) (indexes : List Int) : St × Option Err :=
  let r := colDeleteLoop s (List.range indexes.length)
  match r.2 with
  | some e => (r.1, some e)
  | none =>
    match slDelete r.1.col.rows indexes with
    | some rows => ({ r.1 with col := { r.1.col with rows := rows } }, none)
    | none => (r.1, some Err.indexOutOfRange)

/-- node.template: the property literal enumerating every current field,
with the keys comma-separated exactly as the ForEach loop of the source
builds them. -/
def template (o : Obj) : String :=
  "\x7b" ++ String.intercalate "," (o.map (fun p => p.1 ++ ":$" ++ p.1)) ++ "\x7d"

/-- Text of the CREATE query of the create phase. -/
def createCypher (label tmpl : String) : String :=
  "CREATE (n:" ++ label ++ tmpl ++ ") RETURN elementId(n)"

/-- Text of the row-delete query of the delete phase, with the raw-string
line breaks and tab indentation of the source. -/
def rowDeleteCypher (label : String) : String :=
  "\n\t\t\t\t\tMATCH (n:" ++ label ++
    ")\n\t\t\t\t\tWHERE elementId(n) = $id\n\t\t\t\t\tDELETE n\n\t\t\t\t"

/-- Result of one commit phase: the state reached, the queries issued, and
the panic, if any, that aborted it. -/
structure PRes where
  st : St
  log : List Query
  err : Option Err
deriving DecidableEq

/-- Loop of the create phase: each entry of the added list is asserted to
be a node (a raw value is a failed type assertion), a CREATE query with
the node's template and fields is issued, and the identifier read from the
single result row is assigned to the node's identity. -/
def phaseAddedLoop (sess : Sess) : St → List Entry → List Query → PRes
  | s, [], log => ⟨s, log, none⟩
  | s, Entry.raw _ _ :: _, log => ⟨s, log, some Err.typeAssertion⟩
  | s, Entry.nref t :: rest, log =>
    match heapGet s.heap t with
    | none => ⟨s, log, some Err.badRef⟩
    | some nd =>
      let r := runQuery sess (createCypher s.col.label (template nd.fields))
                 (some nd.fields)
      let log1 := log ++ [r.1]
      match r.2.2 with
      | some e => ⟨s, log1, some (Err.store e)⟩
      | none =>
        match r.2.1.get? 0 with
        | none => ⟨s, log1, some Err.missingResult⟩
        | some row =>
          match rowGetString row "elementId(n)" with
          | none => ⟨s, log1, some Err.missingResult⟩
          | some id =>
              phaseAddedLoop sess
                { s with heap := heapSet s.heap t { nd with id := id } }
                rest log1

/-- Create phase of collection.Commit: skipped when the added list is
empty; the list is cleared only after the whole loop succeeds. -/
def phaseAdded (sess : Sess) (s : St) : PRes :=
  if s.col.added.isEmpty then ⟨s, [], none⟩
  else
    match phaseAddedLoop sess s s.col.added [] with
    | ⟨s1, log, some e⟩ => ⟨s1, log, some e⟩
    | ⟨s1, log, none⟩ => ⟨{ s1 with col := { s1.col with added := [] } }, log, none⟩

/-- Loop of the delete phase: one row-delete query per stored identity,
with the identity as the named parameter. -/
def phaseDeletedLoop (sess : Sess) (label : String) :
    List String → List Query → List Query × Option Err
  | [], log => (log, none)
  | id :: rest, log =>
      let r := runQuery sess (rowDeleteCypher label) (some [("id", Val.str id)])
      match r.2.2 with
      | some e => (log ++ [r.1], some (Err.store e))
      | none => phaseDeletedLoop sess label rest (log ++ [r.1])

/-- Delete phase of collection.Commit: skipped when the deleted list is
empty; the list is cleared only after the whole loop succeeds. -/
def phaseDeleted (sess : Sess) (s : St) : PRes :=
  if s.col.deleted.isEmpty then ⟨s, [], none⟩
  else
    match phaseDeletedLoop sess s.col.label s.col.deleted [] with
    | (log, some e) => ⟨s, log, some e⟩
    | (log, none) => ⟨{ s with col := { s.col with deleted := [] } }, log, none⟩

/-- Loop of the field-commit phase: every node of the modified list runs
its own node.Commit. -/
def phaseModifiedLoop (sess : Sess) : St → List Nat → List Query → PRes
  | s, [], log => ⟨s, log, none⟩
  | s, t :: rest, log =>
      match nodeCommit sess s t with
      | (s1, l, some e) => ⟨s1, log ++ l, some e⟩
      | (s1, l, none) => phaseModifiedLoop sess s1 rest (log ++ l)

/-- Field-commit phase of collection.Commit: skipped when the modified
list is empty; the list is cleared only after the whole loop succeeds. -/
def phaseModified (sess : Sess) (s : St) : PRes :=
  if s.col.modified.isEmpty then ⟨s, [], none⟩
  else
    match phaseModifiedLoop sess s s.col.modified [] with
    | ⟨s1, log, some e⟩ => ⟨s1, log, some e⟩
    | ⟨s1, log, none⟩ => ⟨{ s1 with col := { s1.col with modified := [] } }, log, none⟩

/-- collection.Commit: the create phase, then the delete phase, then the
field-commit phase; a panic in a phase aborts the call, leaving the later
phases un-run. -/
def colCommit (sess : Sess) (s : St) : St × List Query × Option Err :=
  match phaseAdded sess s with
  | ⟨s1, log1, some e⟩ => (s1, log1, some e)
  | ⟨s1, log1, none⟩ =>
    match phaseDeleted sess s1 with
    | ⟨s2, log2, some e⟩ => (s2, log1 ++ log2, some e)
    | ⟨s2, log2, none⟩ =>
      match phaseModified sess s2 with
      | ⟨s3, log3, err⟩ => (s3, log1 ++ log2 ++ log3, err)

/-- A session on which every query succeeds with no result rows. -/
def sessOK : Sess := fun _ _ => SessOut.ok [] none

/-- A session on which every query fails at run time. -/
def sessFail : Sess := fun _ _ => SessOut.runErr "boom"

/-- A session answering every query with one row carrying the created
element identifier. -/
def sessCreate : Sess :=
  fun _ _ => SessOut.ok [[("elementId(n)", RecVal.plain (Val.str "eid-new"))]] none

/-- A session yielding one record and then an iteration error. -/
def sessIterErr : Sess :=
  fun _ _ => SessOut.ok [[("a", RecVal.plain (Val.int 1))]] (some "iterboom")

/-- A loaded node with identity x1 whose field name has a pending
modification (modifiedK is non-empty, addedK and deletedK empty). -/
def sC1 : St :=
  ⟨⟨[Entry.nref 0], "L", [], [0], []⟩,
   [(0, ⟨[("name", Val.str "B")], "x1", [], ["name"], []⟩)], 1⟩

/-- A collection of two loaded rows with identities a and b and no pending
changes. -/
def sC2 : St :=
  ⟨⟨[Entry.nref 0, Entry.nref 1], "L", [], [], []⟩,
   [(0, newNodeData "a" [("k", Val.int 1)]),
    (1, newNodeData "b" [("k", Val.int 2)])], 2⟩

/-- A freshly loaded empty collection. -/
def sC3 : St := ⟨⟨[], "L", [], [], []⟩, [], 0⟩

/-- A field mapping handed to insert and add. -/
def oC3 : Obj := [("a", Val.int 1)]

/-- A loaded node with identity x1, one persisted field k, and no pending
changes. -/
def sC4 : St :=
  ⟨⟨[Entry.nref 0], "L", [], [], []⟩,
   [(0, newNodeData "x1" [("k", Val.str "v")])], 1⟩

/-- A loaded node whose field k has a pending modification. -/
def sC5 : St :=
  ⟨⟨[Entry.nref 0], "L", [], [0], []⟩,
   [(0, ⟨[("k", Val.str "v")], "x1", [], ["k"], []⟩)], 1⟩

/-- A loaded node with one persisted field and no pending changes, in a
collection whose modified list is empty. -/
def sC6 : St :=
  ⟨⟨[Entry.nref 0], "L", [], [], []⟩,
   [(0, newNodeData "x1" [("k", Val.str "v")])], 1⟩

/-- A collection with one pending row deletion and nothing else dirty. -/
def sC7 : St := ⟨⟨[], "L", [], [], ["d1"]⟩, [], 0⟩

theorem heapGet_heapSet (h : List (Nat × NodeData)) (t u : Nat) (nd : NodeData) :
    heapGet (heapSet h t nd) u = if t = u then some nd else heapGet h u := by
  by_cases htu : t = u
  · subst htu; simp [heapGet, heapSet]
  · simp [heapGet, heapSet, htu]

theorem heapGet_heapSet_stable (h : List (Nat × NodeData)) (t : Nat)
    (nd : NodeData) (hnd : heapGet h t = some nd) (u : Nat) :
    heapGet (heapSet h t nd) u = heapGet h u := by
  rw [heapGet_heapSet]
  by_cases htu : t = u
  · subst htu; simp [hnd]
  · simp [htu]

/-- C1: the claim says a node commit with a non-empty addedKeys or
modifiedKeys issues one SET query and leaves both sets empty, so that a
second commit issues zero queries.  Evaluating node.Commit on a node whose
modifiedKeys is non-empty shows the code clears only addedKeys: the first
commit issues one query and succeeds, modifiedKeys still holds the key
afterwards, and a second commit with no intervening mutation issues one
further query instead of zero. -/
theorem C1_node_commit_eval :
    (nodeCommit sessOK sC1 0).2.1.length = 1
    ∧ (nodeCommit sessOK sC1 0).2.2 = none
    ∧ (heapGet (nodeCommit sessOK sC1 0).1.heap 0).map NodeData.modifiedK =
        some ["name"]
    ∧ (nodeCommit sessOK (nodeCommit sessOK sC1 0).1 0).2.1.length = 1 := by
  decide

/-- C2: the claim says delete(indexes...) resolves each passed index
against the row sequence.  Evaluating collection.Delete with the single
index 1 on a collection of two loaded rows with identities a and b shows
the loop, written for index := range indexes, walks the positions of the
argument slice instead of its values: the identity a of row 0 is recorded
for deletion while row 1 is the one removed from the rows. -/
theorem C2_delete_eval :
    (colDelete sC2 [1]).1.col.deleted = ["a"]
    ∧ (colDelete sC2 [1]).1.col.rows = [Entry.nref 0]
    ∧ (colDelete sC2 [1]).2 = none := by
  decide

/-- C3: the claim says insert wraps the value as a new Node with empty
identity and registers that Node in addedRows.  Evaluating
collection.Insert shows the raw value itself is registered in the added
list, no node is allocated, and the following commit fails on the node
type assertion instead of creating the row. -/
theorem C3_insert_eval :
    (colInsert sC3 0 (AnyV.aobj oC3)).1.col.added = [Entry.raw 0 oC3]
    ∧ (colInsert sC3 0 (AnyV.aobj oC3)).1.heap = []
    ∧ (colInsert sC3 0 (AnyV.aobj oC3)).2 = none
    ∧ (colCommit sessOK (colInsert sC3 0 (AnyV.aobj oC3)).1).2.2 =
        some Err.typeAssertion := by
  decide

/-- C4: the claim says the three dirty-key sets stay pairwise disjoint and
that a re-set removes the key from deletedKeys.  Evaluating unset of a
persisted key followed by set of the same key shows node.Set never touches
deletedKeys: the key ends up in addedKeys and deletedKeys at once. -/
theorem C4_set_after_unset_eval :
    (nodeSet (nodeUnset sC4 0 ["k"]).1 0 [Val.str "k", Val.str "v2"]).2 = none
    ∧ (heapGet (nodeSet (nodeUnset sC4 0 ["k"]).1 0
          [Val.str "k", Val.str "v2"]).1.heap 0).map
        (fun nd => (nd.addedK, nd.deletedK)) = some (["k"], ["k"]) := by
  decide

/-- C5: the claim says unset of a key present in modifiedKeys removes it
from that set.  Evaluating node.Unset on such a key shows the code deletes
from modifiedKeys at the index the key has in addedKeys — which is -1,
since the key is not there — so the call panics out of range and the key
stays in modifiedKeys. -/
theorem C5_unset_modified_eval :
    (nodeUnset sC5 0 ["k"]).2 = some Err.indexOutOfRange
    ∧ (heapGet (nodeUnset sC5 0 ["k"]).1.heap 0).map NodeData.modifiedK =
        some ["k"] := by
  decide

/-- C6 counterexample: the claim says an odd-length set call aborts
without side effects, in particular with no registration in the owning
collection's modifiedRows.  On a concrete node the call does fail with the
misuse error, yet the collection's modified list has changed. -/
theorem C6_counterexample :
    (nodeSet sC6 0 [Val.str "k"]).2 = some Err.misuse
    ∧ (nodeSet sC6 0 [Val.str "k"]).1.col.modified ≠ sC6.col.modified := by
  decide

/-- C9: node.Clear always fails and returns the state untouched: neither
the field store nor any dirty-set changes. -/
theorem C9_clear_always_fails (s : St) (t : Nat) :
    nodeClear s t = (s, some Err.cannotClear) := rfl

/-- Witness for C9 on a concrete loaded node. -/
theorem C9_clear_always_fails_witness :
    nodeClear sC1 0 = (sC1, some Err.cannotClear) :=
  C9_clear_always_fails sC1 0

/-- C10: connection.Query returns a result list in every case: on a run
error the empty list is returned alongside the error, and on an iteration
error every record gathered before it is converted and returned alongside
the error — one output row per gathered record, none discarded. -/
theorem C10_query_preserves_rows (sess : Sess) (q : String) (p : Option Obj) :
    (∀ e, sess q.trim p = SessOut.runErr e → connQuery sess q p = ([], some e))
    ∧ (∀ recs iterErr, sess q.trim p = SessOut.ok recs iterErr →
        connQuery sess q p = (recs.map convRec, iterErr)
        ∧ ((connQuery sess q p).1).length = recs.length) := by
  refine ⟨fun e h => ?_, fun recs iterErr h => ⟨?_, ?_⟩⟩
  · simp [connQuery, connQueryCore, h]
  · simp [connQuery, connQueryCore, h]
  · simp [connQuery, connQueryCore, h]

/-- Witness for C10 at a session yielding one record and then an
iteration error: the gathered row is returned alongside the error. -/
theorem C10_query_preserves_rows_witness :
    connQuery sessIterErr "Q" none =
      ([[("a", OutVal.prim (Val.int 1))]], some "iterboom")
    ∧ (connQuery sessIterErr "Q" none).1.length = 1 := by
  have h := (C10_query_preserves_rows sessIterErr "Q" none).2
    [[("a", RecVal.plain (Val.int 1))]] (some "iterboom") rfl
  exact ⟨h.1, h.2⟩

/-- C6 as amended: a set call with an odd-length argument list fails with
the misuse error before any store interaction, changes no dirty-key set
and writes nothing to the field store, but — unlike the claim as stated —
the node is registered in the owning collection's modifiedRows before the
failure. -/
theorem C6_odd_set_amended (s : St) (t : Nat) (nd : NodeData)
    (values : List Val) (hnd : heapGet s.heap t = some nd)
    (hodd : values.length % 2 = 1) :
    (nodeSet s t values).2 = some Err.misuse
    ∧ (∀ u, heapGet (nodeSet s t values).1.heap u = heapGet s.heap u)
    ∧ (nodeSet s t values).1.col.rows = s.col.rows
    ∧ (nodeSet s t values).1.col.added = s.col.added
    ∧ (nodeSet s t values).1.col.deleted = s.col.deleted
    ∧ (nodeSet s t values).1.col.modified =
        (if s.col.modified.contains t then s.col.modified
         else s.col.modified ++ [t]) := by
  have heven : (values.length % 2 == 0) = false := by
    simp [hodd]
  by_cases hc : t ∈ s.col.modified
  · simp [nodeSet, hnd, heven, mapObjectSet, hc,
      heapGet_heapSet_stable s.heap t nd hnd]
  · simp [nodeSet, hnd, heven, mapObjectSet, hc,
      heapGet_heapSet_stable s.heap t nd hnd]

/-- Witness for the amended C6 on a concrete node: the call fails with the
misuse error, the node record is untouched, and the node's tag has been
appended to the collection's modified list. -/
theorem C6_odd_set_amended_witness :
    (nodeSet sC6 0 [Val.str "k"]).2 = some Err.misuse
    ∧ heapGet (nodeSet sC6 0 [Val.str "k"]).1.heap 0 = heapGet sC6.heap 0
    ∧ (nodeSet sC6 0 [Val.str "k"]).1.col.modified = sC6.col.modified ++ [0] := by
  have h := C6_odd_set_amended sC6 0 (newNodeData "x1" [("k", Val.str "v")])
    [Val.str "k"] (by decide) (by decide)
  exact ⟨h.1, h.2.1 0, h.2.2.2.2.2.trans (by decide)⟩

theorem phaseAddedLoop_col (sess : Sess) (es : List Entry) :
    ∀ s log, (phaseAddedLoop sess s es log).st.col = s.col := by
  induction es with
  | nil => intro s log; rfl
  | cons e rest ih =>
      intro s log
      cases e with
      | raw t o => rfl
      | nref t =>
          simp only [phaseAddedLoop]
          split
          · rfl
          · split
            · rfl
            · split
              · rfl
              · split
                · rfl
                · exact ih _ _

theorem phaseAdded_deleted (sess : Sess) (s : St) :
    (phaseAdded sess s).st.col.deleted = s.col.deleted := by
  by_cases hemp : s.col.added.isEmpty = true
  · unfold phaseAdded; rw [if_pos hemp]
  · rcases hL : phaseAddedLoop sess s s.col.added [] with ⟨s1, log, err⟩
    have hcol := phaseAddedLoop_col sess s.col.added s []
    rw [hL] at hcol
    unfold phaseAdded
    rw [if_neg hemp, hL]
    cases err with
    | none => simpa using congrArg Col.deleted hcol
    | some e => exact congrArg Col.deleted hcol

theorem phaseAdded_modified (sess : Sess) (s : St) :
    (phaseAdded sess s).st.col.modified = s.col.modified := by
  by_cases hemp : s.col.added.isEmpty = true
  · unfold phaseAdded; rw [if_pos hemp]
  · rcases hL : phaseAddedLoop sess s s.col.added [] with ⟨s1, log, err⟩
    have hcol := phaseAddedLoop_col sess s.col.added s []
    rw [hL] at hcol
    unfold phaseAdded
    rw [if_neg hemp, hL]
    cases err with
    | none => simpa using congrArg Col.modified hcol
    | some e => exact congrArg Col.modified hcol

theorem phaseAdded_err_added (sess : Sess) (s : St)
    (h : (phaseAdded sess s).err ≠ none) :
    (phaseAdded sess s).st.col.added = s.col.added := by
  by_cases hemp : s.col.added.isEmpty = true
  · unfold phaseAdded at h; rw [if_pos hemp] at h; exact absurd rfl h
  · rcases hL : phaseAddedLoop sess s s.col.added [] with ⟨s1, log, err⟩
    have hcol := phaseAddedLoop_col sess s.col.added s []
    rw [hL] at hcol
    unfold phaseAdded at h ⊢
    rw [if_neg hemp, hL] at h ⊢
    cases err with
    | none => exact absurd rfl h
    | some e => exact congrArg Col.added hcol

theorem phaseAdded_ok_added (sess : Sess) (s : St)
    (h : (phaseAdded sess s).err = none) :
    (phaseAdded sess s).st.col.added = [] := by
  by_cases hemp : s.col.added.isEmpty = true
  · unfold phaseAdded
    rw [if_pos hemp]
    simpa using hemp
  · rcases hL : phaseAddedLoop sess s s.col.added [] with ⟨s1, log, err⟩
    unfold phaseAdded at h ⊢
    rw [if_neg hemp, hL] at h ⊢
    cases err with
    | none => rfl
    | some e => simp at h

theorem phaseDeleted_err_st (sess : Sess) (s : St)
    (h : (phaseDeleted sess s).err ≠ none) :
    (phaseDeleted sess s).st = s := by
  by_cases hemp : s.col.deleted.isEmpty = true
  · unfold phaseDeleted at h; rw [if_pos hemp] at h; exact absurd rfl h
  · rcases hL : phaseDeletedLoop sess s.col.label s.col.deleted [] with ⟨log, err⟩
    unfold phaseDeleted at h ⊢
    rw [if_neg hemp, hL] at h ⊢
    cases err with
    | none => exact absurd rfl h
    | some e => rfl

theorem phaseDeleted_added (sess : Sess) (s : St) :
    (phaseDeleted sess s).st.col.added = s.col.added := by
  by_cases hemp : s.col.deleted.isEmpty = true
  · unfold phaseDeleted; rw [if_pos hemp]
  · rcases hL : phaseDeletedLoop sess s.col.label s.col.deleted [] with ⟨log, err⟩
    unfold phaseDeleted
    rw [if_neg hemp, hL]
    cases err with
    | none => rfl
    | some e => rfl

theorem phaseDeleted_modified (sess : Sess) (s : St) :
    (phaseDeleted sess s).st.col.modified = s.col.modified := by
  by_cases hemp : s.col.deleted.isEmpty = true
  · unfold phaseDeleted; rw [if_pos hemp]
  · rcases hL : phaseDeletedLoop sess s.col.label s.col.deleted [] with ⟨log, err⟩
    unfold phaseDeleted
    rw [if_neg hemp, hL]
    cases err with
    | none => rfl
    | some e => rfl

theorem phaseDeleted_ok_deleted (sess : Sess) (s : St)
    (h : (phaseDeleted sess s).err = none) :
    (phaseDeleted sess s).st.col.deleted = [] := by
  by_cases hemp : s.col.deleted.isEmpty = true
  · unfold phaseDeleted
    rw [if_pos hemp]
    simpa using hemp
  · rcases hL : phaseDeletedLoop sess s.col.label s.col.deleted [] with ⟨log, err⟩
    unfold phaseDeleted at h ⊢
    rw [if_neg hemp, hL] at h ⊢
    cases err with
    | none => rfl
    | some e => simp at h

theorem nodeCommitSet_col (sess : Sess) (s : St) (t : Nat) (nd : NodeData) :
    (nodeCommitSet sess s t nd).1.col = s.col := by
  unfold nodeCommitSet
  split
  · split
    · rfl
    · rfl
  · rfl

theorem nodeCommit_col (sess : Sess) (s : St) (t : Nat) :
    (nodeCommit sess s t).1.col = s.col := by
  unfold nodeCommit
  split
  · rfl
  · rename_i nd heq
    have h := nodeCommitSet_col sess s t nd
    split
    · rename_i s1 log1 e heq2
      rw [heq2] at h
      exact h
    · rename_i s1 log1 heq2
      rw [heq2] at h
      split
      · exact h
      · split
        · split
          · exact h
          · exact h
        · exact h

theorem phaseModifiedLoop_col (sess : Sess) (ts : List Nat) :
    ∀ s log, (phaseModifiedLoop sess s ts log).st.col = s.col := by
  induction ts with
  | nil => intro s log; rfl
  | cons t rest ih =>
      intro s log
      simp only [phaseModifiedLoop]
      split
      · rename_i s1 l e heq
        have h := nodeCommit_col sess s t
        rw [heq] at h
        exact h
      · rename_i s1 l heq
        have h := nodeCommit_col sess s t
        rw [heq] at h
        exact (ih _ _).trans h

theorem phaseModified_added (sess : Sess) (s : St) :
    (phaseModified sess s).st.col.added = s.col.added := by
  by_cases hemp : s.col.modified.isEmpty = true
  · unfold phaseModified; rw [if_pos hemp]
  · rcases hL : phaseModifiedLoop sess s s.col.modified [] with ⟨s1, log, err⟩
    have hcol := phaseModifiedLoop_col sess s.col.modified s []
    rw [hL] at hcol
    unfold phaseModified
    rw [if_neg hemp, hL]
    cases err with
    | none => simpa using congrArg Col.added hcol
    | some e => exact congrArg Col.added hcol

theorem phaseModified_deleted (sess : Sess) (s : St) :
    (phaseModified sess s).st.col.deleted = s.col.deleted := by
  by_cases hemp : s.col.modified.isEmpty = true
  · unfold phaseModified; rw [if_pos hemp]
  · rcases hL : phaseModifiedLoop sess s s.col.modified [] with ⟨s1, log, err⟩
    have hcol := phaseModifiedLoop_col sess s.col.modified s []
    rw [hL] at hcol
    unfold phaseModified
    rw [if_neg hemp, hL]
    cases err with
    | none => simpa using congrArg Col.deleted hcol
    | some e => exact congrArg Col.deleted hcol

theorem phaseModified_ok_modified (sess : Sess) (s : St)
    (h : (phaseModified sess s).err = none) :
    (phaseModified sess s).st.col.modified = [] := by
  by_cases hemp : s.col.modified.isEmpty = true
  · unfold phaseModified
    rw [if_pos hemp]
    simpa using hemp
  · rcases hL : phaseModifiedLoop sess s s.col.modified [] with ⟨s1, log, err⟩
    unfold phaseModified at h ⊢
    rw [if_neg hemp, hL] at h ⊢
    cases err with
    | none => rfl
    | some e => simp at h

theorem colCommit_err1 (sess : Sess) (s : St)
    (h : (phaseAdded sess s).err ≠ none) :
    colCommit sess s =
      ((phaseAdded sess s).st, (phaseAdded sess s).log, (phaseAdded sess s).err) := by
  unfold colCommit
  rcases hp1 : phaseAdded sess s with ⟨s1, l1, e1⟩
  cases e1 with
  | none => rw [hp1] at h; exact absurd rfl h
  | some e => rfl

theorem colCommit_err2 (sess : Sess) (s : St)
    (h1 : (phaseAdded sess s).err = none)
    (h2 : (phaseDeleted sess (phaseAdded sess s).st).err ≠ none) :
    colCommit sess s =
      ((phaseDeleted sess (phaseAdded sess s).st).st,
       (phaseAdded sess s).log ++ (phaseDeleted sess (phaseAdded sess s).st).log,
       (phaseDeleted sess (phaseAdded sess s).st).err) := by
  cases he : (phaseDeleted sess (phaseAdded sess s).st).err with
  | none => exact absurd he h2
  | some e =>
    have hp1 : phaseAdded sess s =
        ⟨(phaseAdded sess s).st, (phaseAdded sess s).log, none⟩ := by
      rw [← h1]
    have hp2 : phaseDeleted sess (phaseAdded sess s).st =
        ⟨(phaseDeleted sess (phaseAdded sess s).st).st,
         (phaseDeleted sess (phaseAdded sess s).st).log, some e⟩ := by
      rw [← he]
    unfold colCommit
    rw [hp1]
    show (match phaseDeleted sess (phaseAdded sess s).st with
      | ⟨s2, log2, some e⟩ => (s2, (phaseAdded sess s).log ++ log2, some e)
      | ⟨s2, log2, none⟩ =>
          ((phaseModified sess s2).st,
           (phaseAdded sess s).log ++ log2 ++ (phaseModified sess s2).log,
           (phaseModified sess s2).err)) = _
    rw [hp2]

theorem colCommit_ok2 (sess : Sess) (s : St)
    (h1 : (phaseAdded sess s).err = none)
    (h2 : (phaseDeleted sess (phaseAdded sess s).st).err = none) :
    colCommit sess s =
      ((phaseModified sess (phaseDeleted sess (phaseAdded sess s).st).st).st,
       (phaseAdded sess s).log ++ (phaseDeleted sess (phaseAdded sess s).st).log ++
         (phaseModified sess (phaseDeleted sess (phaseAdded sess s).st).st).log,
       (phaseModified sess (phaseDeleted sess (phaseAdded sess s).st).st).err) := by
  have hp1 : phaseAdded sess s =
      ⟨(phaseAdded sess s).st, (phaseAdded sess s).log, none⟩ := by
    rw [← h1]
  have hp2 : phaseDeleted sess (phaseAdded sess s).st =
      ⟨(phaseDeleted sess (phaseAdded sess s).st).st,
       (phaseDeleted sess (phaseAdded sess s).st).log, none⟩ := by
    rw [← h2]
  unfold colCommit
  rw [hp1]
  show (match phaseDeleted sess (phaseAdded sess s).st with
    | ⟨s2, log2, some e⟩ => (s2, (phaseAdded sess s).log ++ log2, some e)
    | ⟨s2, log2, none⟩ =>
        ((phaseModified sess s2).st,
         (phaseAdded sess s).log ++ log2 ++ (phaseModified sess s2).log,
         (phaseModified sess s2).err)) = _
  rw [hp2]

/-- C7: collection.Commit executes the create phase, then the row-delete
phase, then the per-node field-commit phase, in that fixed order (the
issued query log is the concatenation of the three phase logs), clearing
addedRows, deletedRows and modifiedRows respectively only after the
corresponding phase completes.  On the first store error the whole call
aborts: the result is exactly the state the failing phase reached — the
already-applied effects of earlier phases stay in place, with no rollback
— and the dirty-sets of the later, un-run phases are un-cleared. -/
theorem C7_commit_three_phases (sess : Sess) (s : St) :
    ((phaseAdded sess s).err ≠ none →
      colCommit sess s =
        ((phaseAdded sess s).st, (phaseAdded sess s).log, (phaseAdded sess s).err)
      ∧ (phaseAdded sess s).st.col.added = s.col.added
      ∧ (phaseAdded sess s).st.col.deleted = s.col.deleted
      ∧ (phaseAdded sess s).st.col.modified = s.col.modified)
  ∧ ((phaseAdded sess s).err = none →
      (phaseAdded sess s).st.col.added = []
      ∧ (phaseAdded sess s).st.col.deleted = s.col.deleted
      ∧ (phaseAdded sess s).st.col.modified = s.col.modified
      ∧ ((phaseDeleted sess (phaseAdded sess s).st).err ≠ none →
          colCommit sess s =
            ((phaseDeleted sess (phaseAdded sess s).st).st,
             (phaseAdded sess s).log ++
               (phaseDeleted sess (phaseAdded sess s).st).log,
             (phaseDeleted sess (phaseAdded sess s).st).err)
          ∧ (phaseDeleted sess (phaseAdded sess s).st).st.col.added = []
          ∧ (phaseDeleted sess (phaseAdded sess s).st).st.col.deleted =
              s.col.deleted
          ∧ (phaseDeleted sess (phaseAdded sess s).st).st.col.modified =
              s.col.modified)
      ∧ ((phaseDeleted sess (phaseAdded sess s).st).err = none →
          (phaseDeleted sess (phaseAdded sess s).st).st.col.deleted = []
          ∧ colCommit sess s =
              ((phaseModified sess (phaseDeleted sess (phaseAdded sess s).st).st).st,
               (phaseAdded sess s).log ++
                 (phaseDeleted sess (phaseAdded sess s).st).log ++
                 (phaseModified sess
                   (phaseDeleted sess (phaseAdded sess s).st).st).log,
               (phaseModified sess
                 (phaseDeleted sess (phaseAdded sess s).st).st).err)
          ∧ ((phaseModified sess
                (phaseDeleted sess (phaseAdded sess s).st).st).err = none →
              (phaseModified sess
                (phaseDeleted sess (phaseAdded sess s).st).st).st.col.added = []
              ∧ (phaseModified sess
                  (phaseDeleted sess (phaseAdded sess s).st).st).st.col.deleted = []
              ∧ (phaseModified sess
                  (phaseDeleted sess (phaseAdded sess s).st).st).st.col.modified = []))) := by
  refine ⟨fun h1 => ⟨colCommit_err1 sess s h1, phaseAdded_err_added sess s h1,
    phaseAdded_deleted sess s, phaseAdded_modified sess s⟩, fun h1 => ?_⟩
  refine ⟨phaseAdded_ok_added sess s h1, phaseAdded_deleted sess s,
    phaseAdded_modified sess s, fun h2 => ?_, fun h2 => ?_⟩
  · refine ⟨colCommit_err2 sess s h1 h2, ?_, ?_, ?_⟩
    · rw [phaseDeleted_err_st sess _ h2]
      exact phaseAdded_ok_added sess s h1
    · rw [phaseDeleted_err_st sess _ h2, phaseAdded_deleted sess s]
    · rw [phaseDeleted_err_st sess _ h2, phaseAdded_modified sess s]
  · refine ⟨phaseDeleted_ok_deleted sess _ h2, colCommit_ok2 sess s h1 h2,
      fun h3 => ⟨?_, ?_, phaseModified_ok_modified sess _ h3⟩⟩
    · rw [phaseModified_added sess _, phaseDeleted_added sess _]
      exact phaseAdded_ok_added sess s h1
    · rw [phaseModified_deleted sess _]
      exact phaseDeleted_ok_deleted sess _ h2

/-- Witness for C7 on a collection with a pending row deletion and a
session that fails every query: the create phase issues nothing, the
delete phase fails, the call aborts with the store error and the deleted
list is left un-cleared. -/
theorem C7_commit_three_phases_witness :
    colCommit sessFail sC7 =
      ((phaseDeleted sessFail (phaseAdded sessFail sC7).st).st,
       (phaseAdded sessFail sC7).log ++
         (phaseDeleted sessFail (phaseAdded sessFail sC7).st).log,
       (phaseDeleted sessFail (phaseAdded sessFail sC7).st).err)
    ∧ (phaseDeleted sessFail (phaseAdded sessFail sC7).st).st.col.deleted =
        sC7.col.deleted
    ∧ (phaseDeleted sessFail (phaseAdded sessFail sC7).st).err =
        some (Err.store "boom") := by
  have h := ((C7_commit_three_phases sessFail sC7).2 (by decide)).2.2.2.1
    (by decide)
  exact ⟨h.1, h.2.2.1, by decide⟩

/-- C8: on a collection with no other pending changes, add of a field
mapping followed by commit with a store that succeeds and answers the
CREATE query with a single row carrying a non-empty identifier leaves the
added node with exactly that store-assigned identity, with its fields
still the given mapping and all dirty-key lists empty, no longer tracked
in addedRows, and the commit reports no error. -/
theorem C8_add_then_commit (s : St) (o : Obj) (id : String) (sess : Sess)
    (ha : s.col.added = []) (hd : s.col.deleted = []) (hm : s.col.modified = [])
    (hstore : sess ((createCypher s.col.label (template o)).trim) (some o) =
        SessOut.ok [[("elementId(n)", RecVal.plain (Val.str id))]] none)
    (hid : id ≠ "") :
    (colAdd s [AnyV.aobj o]).2 = none
    ∧ (colCommit sess (colAdd s [AnyV.aobj o]).1).2.2 = none
    ∧ heapGet (colCommit sess (colAdd s [AnyV.aobj o]).1).1.heap s.nextTag =
        some ⟨o, id, [], [], []⟩
    ∧ (colCommit sess (colAdd s [AnyV.aobj o]).1).1.col.added = []
    ∧ id ≠ "" := by
  refine ⟨?_, ?_, ?_, ?_, hid⟩ <;>
    simp [colAdd, colAddLoop, ha, hd, hm, colCommit, phaseAdded, phaseAddedLoop,
      phaseDeleted, phaseModified, runQuery, connQueryCore, hstore, heapGet, heapSet,
      newNodeData, rowGetString, convRec, convVal]

/-- Witness for C8 on a fresh empty collection, the mapping with one field
a, and a session answering the CREATE query with the identifier eid-new. -/
theorem C8_add_then_commit_witness :
    (colAdd sC3 [AnyV.aobj oC3]).2 = none
    ∧ (colCommit sessCreate (colAdd sC3 [AnyV.aobj oC3]).1).2.2 = none
    ∧ heapGet (colCommit sessCreate (colAdd sC3 [AnyV.aobj oC3]).1).1.heap
        sC3.nextTag = some ⟨oC3, "eid-new", [], [], []⟩
    ∧ (colCommit sessCreate (colAdd sC3 [AnyV.aobj oC3]).1).1.col.added = []
    ∧ ("eid-new" : String) ≠ "" :=
  C8_add_then_commit sC3 oC3 "eid-new" sessCreate rfl rfl rfl rfl (by decide)

end Neo4go
